import Mathlib

/-!
# gin-contrib-lz4: the compression middleware

A shallow embedding of `handler.go` (`newLz4Handler`, `Handle`, `shouldCompress`) and
`lz4.go` (`lz4Writer` and its three methods), with the external collaborators they call:
the header map of `net/http`, `strings.Contains`, `filepath.Ext`, the response sink of the
web framework, `sync.Pool` and the `lz4.Writer` of the codec library.

Go strings are Lean strings (valid UTF-8; the bytes searched for are ASCII), byte slices are
lists of naturals, header keys are given in canonical MIME form (every key literal of the
source is canonical).
-/

namespace GinLz4

/-! ## Library functions used by the source -/

/-- Go `strings.HasPrefix` on character lists. -/
def startsWith : List Char → List Char → Bool
  | _, [] => true
  | [], _ :: _ => false
  | c :: s, p :: ps => c == p && startsWith s ps

/-- Substring search on character lists. -/
def containsChars : List Char → List Char → Bool
  | [], sub => sub.isEmpty
  | c :: s, sub => startsWith (c :: s) sub || containsChars s sub

/-- Go `strings.Contains(s, substr)`. -/
def stringsContains (s substr : String) : Bool :=
  containsChars s.toList substr.toList

/-- The loop of Go `filepath.Ext`, walking the path from its last character: stop with the
empty extension at a path separator, stop with the suffix at a dot. `acc` is the part of the
path already walked over. -/
def extLoop : List Char → List Char → List Char
  | [], _ => []
  | c :: rest, acc =>
    if c = '/' then []
    else if c = '.' then c :: acc
    else extLoop rest (c :: acc)

/-- Go `filepath.Ext(path)`. -/
def filepathExt (path : String) : String :=
  String.mk (extLoop path.toList.reverse [])

/-- Go `[]byte(s)`: the UTF-8 bytes of a string. -/
def bytesOf (s : String) : List Nat :=
  (s.toList.flatMap String.utf8EncodeChar).map UInt8.toNat

/-- Go `http.Header`: canonical key to list of values. -/
structure Header where
  entries : List (String × List String)
deriving DecidableEq

namespace Header

/-- Go `Header.Get`: the first value of the key, or the empty string. -/
def Get (h : Header) (key : String) : String :=
  match h.entries.lookup key with
  | some (v :: _) => v
  | _ => ""

/-- Go `Header.Del`. -/
def Del (h : Header) (key : String) : Header :=
  ⟨h.entries.filter (fun kv => kv.1 != key)⟩

/-- Go `Header.Set`: the key now has exactly this one value. -/
def Set (h : Header) (key value : String) : Header :=
  ⟨(key, [value]) :: (h.Del key).entries⟩

end Header

/-- The part of `http.Request` the middleware reads: headers and `URL.Path`. -/
structure Request where
  Header : Header
  Path : String
deriving DecidableEq

/-- The response sink of the framework (gin's `responseWriter`): header map, status,
byte count (`-1` while nothing has been written) and the bytes sent. -/
structure ResponseWriter where
  header : Header
  status : Int
  size : Int
  body : List Nat
deriving DecidableEq

namespace ResponseWriter

/-- The sink's `noWritten` constant. -/
def noWritten : Int := -1

/-- Sink `Written()`. -/
def Written (w : ResponseWriter) : Bool := w.size != noWritten

/-- Sink `WriteHeader(code)`: records the status unless the header has been written. -/
def WriteHeader (w : ResponseWriter) (code : Int) : ResponseWriter :=
  if code > 0 && w.status != code then
    if w.Written then w else { w with status := code }
  else w

/-- Sink `WriteHeaderNow()`. -/
def WriteHeaderNow (w : ResponseWriter) : ResponseWriter :=
  if w.Written then w else { w with size := 0 }

/-- Sink `Write(data)`: sends the bytes and counts them. -/
def Write (w : ResponseWriter) (data : List Nat) : ResponseWriter :=
  let w1 := w.WriteHeaderNow
  { w1 with body := w1.body ++ data, size := w1.size + data.length }

/-- Sink `Size()`. -/
def Size (w : ResponseWriter) : Int := w.size

end ResponseWriter

/-- The part of `*gin.Context` a handler works on: the request and the response sink that
`c.Writer` is when `Handle` is entered. -/
structure Context where
  Request : Request
  Writer : ResponseWriter

/-! ## Configuration

The declarations of `Options`, of its three exclusion collections and of `DecompressFn` are in
a source file that is not part of `src/`. Each collection is represented by its `Contains`
method, which is all `shouldCompress` uses. -/

/-- The collection behind `l.ExcludedExtensions`, given by its `Contains` method. -/
structure ExcludedExtensions where
  Contains : String → Bool

/-- The collection behind `l.ExcludedPaths`, given by its `Contains` method. -/
structure ExcludedPaths where
  Contains : String → Bool

/-- The collection behind `l.ExcludedPathesRegexs`, given by its `Contains` method. -/
structure ExcludedPathesRegexs where
  Contains : String → Bool

/-- The configuration `Options`. `DecompressFn` is `nil` or a function of the context. -/
structure Options where
  ExcludedExtensions : ExcludedExtensions
  ExcludedPaths : ExcludedPaths
  ExcludedPathesRegexs : ExcludedPathesRegexs
  DecompressFn : Option (Context → Context)

/-- The handler as a request meets it: the embedded `*Options` read through its pointer. -/
structure lz4Handler where
  Options : Options

/-- Method `shouldCompress` of `handler.go`. -/
def lz4Handler.shouldCompress (l : lz4Handler) (req : Request) : Bool :=
  if !stringsContains (req.Header.Get "Accept-Encoding") "lz4" ||
      stringsContains (req.Header.Get "Connection") "Upgrade" ||
      stringsContains (req.Header.Get "Content-Type") "text/event-stream" then
    false
  else
    let extension := filepathExt req.Path
    if l.Options.ExcludedExtensions.Contains extension then false
    else if l.Options.ExcludedPaths.Contains req.Path then false
    else if l.Options.ExcludedPathesRegexs.Contains req.Path then false
    else true

/-! ## The codec library: `lz4.Writer` -/

/-- The codec, a black box: the state of a fresh (or reset) writer, what `Write` and `Close`
do to the state and which bytes they emit to the bound output, and the decoder. -/
structure Codec (σ : Type) where
  init : σ
  write : σ → List Nat → σ × List Nat
  close : σ → σ × List Nat
  decode : List Nat → Option (List Nat)

/-- The output an `lz4.Writer` is bound to: `nil`, the response sink, or `ioutil.Discard`. -/
inductive Dst where
  | nil
  | sink
  | discard
deriving DecidableEq

/-- An `lz4.Writer` object: its bound output and its codec state. -/
structure lz4.Writer (σ : Type) where
  dst : Dst
  st : σ

/-- The `sync.Pool` of the handler together with the writer objects it hands out, addressed by
number: `heap` holds the objects, `fresh` is the next unused address, `idle` the pooled ones. -/
structure Pool (σ : Type) where
  heap : Nat → lz4.Writer σ
  fresh : Nat
  idle : List Nat

/-- What `c.Writer` currently is: the original sink, or `&lz4Writer` wrapping the original sink
with the `lz4.Writer` at address `writer`. -/
inductive CWriter where
  | original
  | lz4Writer (writer : Nat)
deriving DecidableEq

/-- A call of the rest of the handler chain on the context: `c.Writer.Write`,
`c.Writer.WriteString`, `c.Writer.WriteHeader` and `c.Header`. -/
inductive Call where
  | Write (data : List Nat)
  | WriteString (s : String)
  | WriteHeader (code : Int)
  | Header (key value : String)
deriving DecidableEq

/-- What `c.Next()` runs: the calls the rest of the chain makes, and whether it then panics
instead of returning. -/
structure Chain where
  calls : List Call
  panics : Bool

/-- How a function is left. -/
inductive Outcome where
  | returned
  | panicked
deriving DecidableEq

/-- The observable steps, in the order they happen. -/
inductive Event where
  | decompress
  | shouldCompress (result : Bool)
  | poolGet (lz : Nat)
  | poolPut (lz : Nat)
  | reset (lz : Nat) (dst : Dst)
  | header (key value : String)
  | install (lz : Nat)
  | next
  | call (op : Call)
  | delHeader (key : String)
  | compress (lz : Nat) (data : List Nat)
  | close (lz : Nat)
  | sinkWrite (data : List Nat)
  | sinkWriteHeader (code : Int)
deriving DecidableEq

/-- The state a request is handled in. -/
structure State (σ : Type) where
  c : Context
  Writer : CWriter
  zPool : Pool σ
  trace : List Event

namespace State

variable {σ : Type}

/-- Append an event to the trace. -/
def log (s : State σ) (e : Event) : State σ :=
  { s with trace := s.trace ++ [e] }

/-- Replace the response sink's header map. -/
def setHeaders (s : State σ) (h : Header) : State σ :=
  { s with c := { s.c with Writer := { s.c.Writer with header := h } } }

/-- Store a writer object at an address. -/
def store (s : State σ) (lz : Nat) (w : lz4.Writer σ) : State σ :=
  { s with zPool := { s.zPool with heap := Function.update s.zPool.heap lz w } }

end State

variable {σ : Type}

/-- Bytes leaving an `lz4.Writer` towards its bound output: the sink receives them through its
`Write`, `ioutil.Discard` (and an unbound writer) drops them. Nothing to emit is no call. -/
def emit (dst : Dst) (out : List Nat) (s : State σ) : State σ :=
  if out = [] then s
  else
    match dst with
    | Dst.sink =>
      ({ s with c := { s.c with Writer := s.c.Writer.Write out } }).log (Event.sinkWrite out)
    | _ => s

/-- Library `lz4.NewWriter(nil)`. -/
def lz4.NewWriter (K : Codec σ) : lz4.Writer σ := { dst := Dst.nil, st := K.init }

/-- Library `(*lz4.Writer).Reset(dst)`: fresh codec state, new output. -/
def lz4.Writer.Reset (K : Codec σ) (lz : Nat) (dst : Dst) (s : State σ) : State σ :=
  (s.store lz { dst := dst, st := K.init }).log (Event.reset lz dst)

/-- Library `(*lz4.Writer).Write(data)`. -/
def lz4.Writer.Write (K : Codec σ) (lz : Nat) (data : List Nat) (s : State σ) : State σ :=
  let w := s.zPool.heap lz
  let r := K.write w.st data
  emit w.dst r.2 ((s.store lz { w with st := r.1 }).log (Event.compress lz data))

/-- Library `(*lz4.Writer).Close()`. -/
def lz4.Writer.Close (K : Codec σ) (lz : Nat) (s : State σ) : State σ :=
  let w := s.zPool.heap lz
  let r := K.close w.st
  emit w.dst r.2 ((s.store lz { w with st := r.1 }).log (Event.close lz))

/-- Library `sync.Pool.Get` with `New` set to `lz4.NewWriter(nil)`: an idle object, else a new
one. -/
def zPoolGet (K : Codec σ) (s : State σ) : Nat × State σ :=
  match s.zPool.idle with
  | lz :: rest =>
    (lz, ({ s with zPool := { s.zPool with idle := rest } }).log (Event.poolGet lz))
  | [] =>
    let lz := s.zPool.fresh
    (lz, ({ s with zPool := { heap := Function.update s.zPool.heap lz (lz4.NewWriter K),
                              fresh := lz + 1, idle := [] } }).log (Event.poolGet lz))

/-- Library `sync.Pool.Put`. -/
def zPoolPut (lz : Nat) (s : State σ) : State σ :=
  ({ s with zPool := { s.zPool with idle := lz :: s.zPool.idle } }).log (Event.poolPut lz)

/-- Framework `c.Header(key, value)`: the empty value deletes, any other sets, on the header
map of the response sink. -/
def cHeader (key value : String) (s : State σ) : State σ :=
  if value = "" then s.setHeaders (s.c.Writer.header.Del key)
  else s.setHeaders (s.c.Writer.header.Set key value)

/-! ## `lz4.go`: the wrapper -/

/-- Method `(*lz4Writer).Write` of `lz4.go`. -/
def lz4Writer.Write (K : Codec σ) (lz : Nat) (data : List Nat) (s : State σ) : State σ :=
  let s1 := (s.setHeaders (s.c.Writer.header.Del "Content-Length")).log
    (Event.delHeader "Content-Length")
  lz4.Writer.Write K lz data s1

/-- Method `(*lz4Writer).WriteString` of `lz4.go`. -/
def lz4Writer.WriteString (K : Codec σ) (lz : Nat) (str : String) (s : State σ) : State σ :=
  let s1 := (s.setHeaders (s.c.Writer.header.Del "Content-Length")).log
    (Event.delHeader "Content-Length")
  lz4.Writer.Write K lz (bytesOf str) s1

/-- Method `(*lz4Writer).WriteHeader` of `lz4.go`. -/
def lz4Writer.WriteHeader (code : Int) (s : State σ) : State σ :=
  let s1 := (s.setHeaders (s.c.Writer.header.Del "Content-Length")).log
    (Event.delHeader "Content-Length")
  ({ s1 with c := { s1.c with Writer := s1.c.Writer.WriteHeader code } }).log
    (Event.sinkWriteHeader code)

/-! ## The rest of the chain -/

/-- One call of the chain, dispatched on what `c.Writer` is. -/
def runCall (K : Codec σ) (s : State σ) (op : Call) : State σ :=
  let s0 := s.log (Event.call op)
  match op, s0.Writer with
  | Call.Header key value, _ => cHeader key value s0
  | Call.Write data, CWriter.lz4Writer lz => lz4Writer.Write K lz data s0
  | Call.WriteString str, CWriter.lz4Writer lz => lz4Writer.WriteString K lz str s0
  | Call.WriteHeader code, CWriter.lz4Writer _ => lz4Writer.WriteHeader code s0
  | Call.Write data, CWriter.original =>
    ({ s0 with c := { s0.c with Writer := s0.c.Writer.Write data } }).log (Event.sinkWrite data)
  | Call.WriteString str, CWriter.original =>
    ({ s0 with c := { s0.c with Writer := s0.c.Writer.Write (bytesOf str) } }).log
      (Event.sinkWrite (bytesOf str))
  | Call.WriteHeader code, CWriter.original =>
    ({ s0 with c := { s0.c with Writer := s0.c.Writer.WriteHeader code } }).log
      (Event.sinkWriteHeader code)

/-- Run a sequence of calls. -/
def runCalls (K : Codec σ) (s : State σ) (calls : List Call) : State σ :=
  calls.foldl (runCall K) s

/-- Framework `c.Next()`. -/
def cNext (K : Codec σ) (rest : Chain) (s : State σ) : State σ × Outcome :=
  (runCalls K (s.log Event.next) rest.calls,
   if rest.panics then Outcome.panicked else Outcome.returned)

/-! ## `handler.go`: `Handle` -/

/-- The three deferred calls of `Handle`. -/
inductive Deferred where
  | put (lz : Nat)
  | resetDiscard (lz : Nat)
  | closeAndLength (lz : Nat)
deriving DecidableEq

/-- Run one deferred call. `closeAndLength` is the deferred closure:
`lz.Close()` and then `c.Header("Content-Length", fmt.Sprint(c.Writer.Size()))`, where
`Size` is the original sink's, promoted through the wrapper. -/
def runDeferred (K : Codec σ) (s : State σ) : Deferred → State σ
  | Deferred.put lz => zPoolPut lz s
  | Deferred.resetDiscard lz => lz4.Writer.Reset K lz Dst.discard s
  | Deferred.closeAndLength lz =>
    let s1 := lz4.Writer.Close K lz s
    let v := toString s1.c.Writer.Size
    (cHeader "Content-Length" v s1).log (Event.header "Content-Length" v)

/-- Leave the function: the deferred calls run last-registered first; the stack has the latest
registration at its head. -/
def runDefers (K : Codec σ) (s : State σ) (stack : List Deferred) : State σ :=
  stack.foldl (runDeferred K) s

/-- The first statement of `Handle`: call `DecompressFn` when it is set and the request's
Content-Encoding equals "lz4". -/
def decompressStep (l : lz4Handler) (s : State σ) : State σ :=
  match l.Options.DecompressFn with
  | some fn =>
    if s.c.Request.Header.Get "Content-Encoding" = "lz4" then
      ({ s with c := fn s.c }).log Event.decompress
    else s
  | none => s

/-- The context after the first statement of `Handle`. -/
def afterDecompress (l : lz4Handler) (c : Context) : Context :=
  match l.Options.DecompressFn with
  | some fn => if c.Request.Header.Get "Content-Encoding" = "lz4" then fn c else c
  | none => c

/-- The state `Handle` is entered in: `c.Writer` is the original sink. -/
def enter (c : Context) (zPool : Pool σ) : State σ :=
  { c := c, Writer := CWriter.original, zPool := zPool, trace := [] }

/-- Method `Handle` of `handler.go`. -/
def lz4Handler.Handle (K : Codec σ) (l : lz4Handler) (rest : Chain) (c : Context)
    (zPool : Pool σ) : State σ × Outcome :=
  let s1 := decompressStep l (enter c zPool)
  let ok := l.shouldCompress s1.c.Request
  let s2 := s1.log (Event.shouldCompress ok)
  if !ok then (s2, Outcome.returned)
  else
    let g := zPoolGet K s2
    let lz := g.1
    let defers1 := [Deferred.put lz]
    let defers2 := Deferred.resetDiscard lz :: defers1
    let s3 := lz4.Writer.Reset K lz Dst.sink g.2
    let s4 := (cHeader "Content-Encoding" "lz4" s3).log (Event.header "Content-Encoding" "lz4")
    let s5 := (cHeader "Vary" "Accept-Encoding" s4).log (Event.header "Vary" "Accept-Encoding")
    let s6 := ({ s5 with Writer := CWriter.lz4Writer lz }).log (Event.install lz)
    let defers3 := Deferred.closeAndLength lz :: defers2
    let r := cNext K rest s6
    (runDefers K r.1 defers3, r.2)

/-- The state in which `Handle` calls `c.Next()` on the eligible path, and the writer object
it took from the pool. -/
def atNext (K : Codec σ) (l : lz4Handler) (c : Context) (zPool : Pool σ) : Nat × State σ :=
  let s1 := decompressStep l (enter c zPool)
  let s2 := s1.log (Event.shouldCompress true)
  let g := zPoolGet K s2
  let lz := g.1
  let s3 := lz4.Writer.Reset K lz Dst.sink g.2
  let s4 := (cHeader "Content-Encoding" "lz4" s3).log (Event.header "Content-Encoding" "lz4")
  let s5 := (cHeader "Vary" "Accept-Encoding" s4).log (Event.header "Vary" "Accept-Encoding")
  (lz, ({ s5 with Writer := CWriter.lz4Writer lz }).log (Event.install lz))

/-- The byte sequences a list of calls writes through `Write` and `WriteString`, in order. -/
def written : List Call → List (List Nat)
  | [] => []
  | Call.Write data :: calls => data :: written calls
  | Call.WriteString str :: calls => bytesOf str :: written calls
  | _ :: calls => written calls

/-- Feed chunks to the codec one `Write` after the other: the final codec state and all the
bytes emitted on the way. -/
def feed (K : Codec σ) (st : σ) : List (List Nat) → σ × List Nat
  | [] => (st, [])
  | d :: ds => ((feed K (K.write st d).1 ds).1, (K.write st d).2 ++ (feed K (K.write st d).1 ds).2)

/-- Everything a reset writer emits for the chunks written and the final `Close`. -/
def encodeAll (K : Codec σ) (chunks : List (List Nat)) : List Nat :=
  (feed K K.init chunks).2 ++ (K.close (feed K K.init chunks).1).2

/-- The sink's byte count after `z` more bytes went out in non-empty writes. -/
def sizeAfter (size : Int) (z : List Nat) : Int :=
  if z = [] then size else (if size = ResponseWriter.noWritten then 0 else size) + z.length

/-- Is the event a write of bytes to the sink? -/
def Event.isSinkWrite : Event → Bool
  | Event.sinkWrite _ => true
  | _ => false

/-- Is the event one of `Handle`s own `c.Header` calls? -/
def Event.isHeader : Event → Bool
  | Event.header _ _ => true
  | _ => false

/-- Is the event a return of a writer object to the pool? -/
def Event.isPoolPut : Event → Bool
  | Event.poolPut _ => true
  | _ => false

/-- The events the rest of the chain can cause through the wrapper. -/
def Event.ofChain : Event → Bool
  | Event.call _ => true
  | Event.delHeader _ => true
  | Event.compress _ _ => true
  | Event.sinkWrite _ => true
  | Event.sinkWriteHeader _ => true
  | _ => false

/-- Does the first statement of `Handle` call the hook: one is configured and the request's
Content-Encoding equals "lz4". -/
def hookFires (l : lz4Handler) (c : Context) : Bool :=
  l.Options.DecompressFn.isSome && decide (c.Request.Header.Get "Content-Encoding" = "lz4")

/-- The deferred calls of `Handle` in the order they run when it is left. -/
def deferStack (lz : Nat) : List Deferred :=
  [Deferred.closeAndLength lz, Deferred.resetDiscard lz, Deferred.put lz]

/-- The header map after the `c.Header` calls among the given calls, applied in order. -/
def headersAfter : List Call → Header → Header
  | [], h => h
  | Call.Header key value :: calls, h =>
    headersAfter calls (if value = "" then h.Del key else h.Set key value)
  | Call.Write _ :: calls, h => headersAfter calls h
  | Call.WriteString _ :: calls, h => headersAfter calls h
  | Call.WriteHeader _ :: calls, h => headersAfter calls h

/-! ## Construction: `newLz4Handler` -/

/-- The memory holding `Options` objects, by address. -/
abbrev Memory := Nat → Options

/-- The package variable `DefaultOptions`, a `*Options`: the address of the default object. -/
def DefaultOptions : Nat := 0

/-- Go type `Option`, a `func(*Options)`: what the function does to the object it is given. -/
abbrev Setter := Options → Options

/-- A handler value as `newLz4Handler` builds it: the embedded `*Options` pointer (its pool is
the `zPool` of the request state). -/
structure lz4HandlerValue where
  Options : Nat

/-- Function `newLz4Handler` of `handler.go`: the handler's pointer is `DefaultOptions`, and each
setter is applied to the object this pointer refers to. -/
def newLz4Handler (mem : Memory) (options : List Setter) : lz4HandlerValue × Memory :=
  let handler : lz4HandlerValue := { Options := DefaultOptions }
  (handler,
   options.foldl (fun m setter => Function.update m handler.Options (setter (m handler.Options)))
     mem)

/-- Read a handler's configuration through its pointer. -/
def lz4HandlerValue.view (h : lz4HandlerValue) (mem : Memory) : lz4Handler :=
  { Options := mem h.Options }

/-- Modelled from the spec: `WithExcludedExtensions` and the extension set it builds are declared
in a source file that is not part of `src/`; the option replaces `excludedExtensions` by the set
of the given extension strings. -/
def WithExcludedExtensions (args : List String) : Setter :=
  fun o => { o with ExcludedExtensions := ⟨fun ext => decide (ext ∈ args)⟩ }

/-- Modelled from the spec: the default configuration, whose declaration is in a source file that
is not part of `src/`: the three exclusion sets empty, no decompression hook. -/
def defaultConfiguration : Options :=
  { ExcludedExtensions := ⟨fun _ => false⟩, ExcludedPaths := ⟨fun _ => false⟩,
    ExcludedPathesRegexs := ⟨fun _ => false⟩, DecompressFn := none }

/-! ## Concrete inputs -/

/-- A codec that buffers what is written and emits, on `Close`, a marker byte followed by the
buffered bytes. -/
def storeCodec : Codec (List Nat) where
  init := []
  write := fun st data => (st ++ data, [])
  close := fun st => ([], 4 :: st)
  decode := fun z =>
    match z with
    | 4 :: stored => some stored
    | _ => none

/-- A pool with no idle writer and an unused heap. -/
def emptyPool : Pool (List Nat) :=
  { heap := fun _ => { dst := Dst.nil, st := [] }, fresh := 0, idle := [] }

/-- A sink nothing has been written to. -/
def freshSink : ResponseWriter :=
  { header := ⟨[]⟩, status := 200, size := -1, body := [] }

/-- The request `GET /` with `Accept-Encoding: lz4`. -/
def getRoot : Context :=
  { Request := { Header := ⟨[("Accept-Encoding", ["lz4"])]⟩, Path := "/" }, Writer := freshSink }

/-- The request `GET /` with no header. -/
def plainRoot : Context :=
  { Request := { Header := ⟨[]⟩, Path := "/" }, Writer := freshSink }

/-- The request `POST /` with `Content-Encoding: lz4` and no `Accept-Encoding`. -/
def postRoot : Context :=
  { Request := { Header := ⟨[("Content-Encoding", ["lz4"])]⟩, Path := "/" }, Writer := freshSink }

/-- A handler with the default configuration. -/
def plainHandler : lz4Handler := { Options := defaultConfiguration }

/-- A decompression hook that rejects the request: status 400 and `Content-Length: 0` on the
response. -/
def rejectHook (c : Context) : Context :=
  { c with Writer := { c.Writer.WriteHeader 400 with
      header := c.Writer.header.Set "Content-Length" "0" } }

/-- A handler whose decompression hook is `rejectHook`. -/
def rejectingHandler : lz4Handler :=
  { Options := { defaultConfiguration with DecompressFn := some rejectHook } }

/-- A decompression hook that answers by itself: it writes three bytes to the response sink. -/
def writingHook (c : Context) : Context :=
  { c with Writer := c.Writer.Write [1, 2, 3] }

/-- A handler whose decompression hook is `writingHook`. -/
def writingHandler : lz4Handler :=
  { Options := { defaultConfiguration with DecompressFn := some writingHook } }

/-- The request `POST /` with `Accept-Encoding: lz4` and `Content-Encoding: lz4`. -/
def bothRoot : Context :=
  { Request := { Header := ⟨[("Accept-Encoding", ["lz4"]), ("Content-Encoding", ["lz4"])]⟩,
                 Path := "/" },
    Writer := freshSink }

/-- The chain of the repository's test server: set `Content-Length`, status 200, write the
text. -/
def testChain : Chain :=
  { calls := [Call.Header "Content-Length" "18", Call.WriteHeader 200,
      Call.WriteString "Lz4 Test Response "],
    panics := false }

/-- A chain that writes two chunks and panics. -/
def panickingChain : Chain :=
  { calls := [Call.Write [1, 2], Call.Write [3]], panics := true }

/-- A memory whose default object excludes the extension `.png` and nothing else, with no
decompression hook. -/
def initialMemory : Memory := fun _ => WithExcludedExtensions [".png"] defaultConfiguration

/-- The request `GET /image.png` with `Accept-Encoding: lz4`. -/
def pngRequest : Request :=
  { Header := ⟨[("Accept-Encoding", ["lz4"])]⟩, Path := "/image.png" }

/-- The request `GET /index.html` with `Accept-Encoding: lz4`. -/
def htmlRequest : Request :=
  { Header := ⟨[("Accept-Encoding", ["lz4"])]⟩, Path := "/index.html" }

/-! ## Theorems -/

/-! ### The library functions -/

theorem startsWith_iff (s p : List Char) : startsWith s p = true ↔ p <+: s := by
  induction s generalizing p with
  | nil => cases p <;> simp [startsWith]
  | cons c s ih =>
    cases p with
    | nil => simp [startsWith]
    | cons a p =>
      rw [startsWith, List.cons_prefix_cons, Bool.and_eq_true, ih, beq_iff_eq]
      constructor
      · rintro ⟨h1, h2⟩
        exact ⟨h1.symm, h2⟩
      · rintro ⟨h1, h2⟩
        exact ⟨h1.symm, h2⟩

/-- The search of `strings.Contains` finds exactly the contiguous sublists. -/
theorem stringsContains_iff (s substr : String) :
    stringsContains s substr = true ↔ substr.toList <:+: s.toList := by
  unfold stringsContains
  generalize s.toList = cs
  induction cs with
  | nil => cases substr.toList <;> simp [containsChars]
  | cons c cs ih =>
    rw [containsChars, Bool.or_eq_true, ih, startsWith_iff, List.infix_cons_iff]

/-- The extension of the paths the repository's tests request. -/
theorem filepathExt_examples :
    filepathExt "/index.html" = ".html" ∧ filepathExt "/image.png" = ".png" ∧
    filepathExt "/api/books" = "" ∧ filepathExt "/" = "" ∧ filepathExt "/a.b/c" = "" ∧
    filepathExt "/archive.tar.gz" = ".gz" := by
  decide

/-! ### The header map -/

theorem lookup_filter_ne (k : String) (es : List (String × List String)) :
    (es.filter (fun kv => kv.1 != k)).lookup k = none := by
  induction es with
  | nil => rfl
  | cons e es ih =>
    obtain ⟨a, b⟩ := e
    by_cases h : a = k
    · simp [List.filter_cons, h, ih]
    · have hk : (k == a) = false := by simpa using fun h2 => h h2.symm
      simp [List.filter_cons, h, List.lookup_cons, hk, ih]

theorem lookup_filter_other (k key : String) (hne : key ≠ k)
    (es : List (String × List String)) :
    (es.filter (fun kv => kv.1 != k)).lookup key = es.lookup key := by
  induction es with
  | nil => rfl
  | cons e es ih =>
    obtain ⟨a, b⟩ := e
    by_cases h : a = k
    · subst h
      have hk : (key == a) = false := by simpa using hne
      simp [List.filter_cons, List.lookup_cons, hk, ih]
    · by_cases h2 : key = a
      · simp [List.filter_cons, h, List.lookup_cons, h2]
      · have hk : (key == a) = false := by simpa using h2
        simp [List.filter_cons, h, List.lookup_cons, hk, ih]

theorem Header.Get_Del (h : Header) (k : String) : (h.Del k).Get k = "" := by
  simp [Header.Get, Header.Del, lookup_filter_ne]

theorem Header.Get_Set (h : Header) (k v : String) : (h.Set k v).Get k = v := by
  simp [Header.Get, Header.Set, List.lookup_cons]

theorem Header.Get_Set_other (h : Header) (k v key : String) (hne : key ≠ k) :
    (h.Set k v).Get key = h.Get key := by
  have hk : (key == k) = false := by simpa using hne
  simp [Header.Get, Header.Set, Header.Del, List.lookup_cons, hk, lookup_filter_other k key hne]

/-! ### Emission to the bound output -/

theorem emit_frame (dst : Dst) (out : List Nat) (s : State σ) :
    (emit dst out s).Writer = s.Writer ∧ (emit dst out s).zPool = s.zPool ∧
    (emit dst out s).c.Request = s.c.Request ∧
    (emit dst out s).c.Writer.header = s.c.Writer.header ∧
    (emit dst out s).c.Writer.status = s.c.Writer.status := by
  unfold emit
  split
  · simp
  · cases dst <;> simp [State.log, ResponseWriter.Write, ResponseWriter.WriteHeaderNow]
    split <;> simp

theorem emit_body (dst : Dst) (out : List Nat) (s : State σ) :
    (emit dst out s).c.Writer.body =
      s.c.Writer.body ++ (if dst = Dst.sink then out else []) := by
  unfold emit
  split
  · rename_i h
    simp [h]
  · cases dst <;> simp [State.log, ResponseWriter.Write, ResponseWriter.WriteHeaderNow]
    split <;> simp

theorem emit_size (dst : Dst) (out : List Nat) (s : State σ) :
    (emit dst out s).c.Writer.size =
      (if dst = Dst.sink then sizeAfter s.c.Writer.size out else s.c.Writer.size) := by
  unfold emit
  split
  · rename_i h
    simp [h, sizeAfter]
  · rename_i h
    cases dst <;>
      simp [State.log, ResponseWriter.Write, ResponseWriter.WriteHeaderNow, sizeAfter, h,
        ResponseWriter.Written]
    split <;> simp_all

theorem emit_trace (dst : Dst) (out : List Nat) (s : State σ) :
    (emit dst out s).trace =
      s.trace ++ (if dst = Dst.sink ∧ out ≠ [] then [Event.sinkWrite out] else []) := by
  unfold emit
  split
  · rename_i h
    simp [h]
  · rename_i h
    cases dst <;> simp [State.log, h]

theorem emit_Writer (dst : Dst) (out : List Nat) (s : State σ) :
    (emit dst out s).Writer = s.Writer := (emit_frame dst out s).1

theorem emit_zPool (dst : Dst) (out : List Nat) (s : State σ) :
    (emit dst out s).zPool = s.zPool := (emit_frame dst out s).2.1

theorem emit_Request (dst : Dst) (out : List Nat) (s : State σ) :
    (emit dst out s).c.Request = s.c.Request := (emit_frame dst out s).2.2.1

theorem emit_header (dst : Dst) (out : List Nat) (s : State σ) :
    (emit dst out s).c.Writer.header = s.c.Writer.header := (emit_frame dst out s).2.2.2.1

theorem emit_status (dst : Dst) (out : List Nat) (s : State σ) :
    (emit dst out s).c.Writer.status = s.c.Writer.status := (emit_frame dst out s).2.2.2.2

/-! ### One call of the chain through the wrapper -/

theorem sinkWriteHeader_frame (w : ResponseWriter) (code : Int) :
    (w.WriteHeader code).body = w.body ∧ (w.WriteHeader code).size = w.size ∧
    (w.WriteHeader code).header = w.header := by
  unfold ResponseWriter.WriteHeader
  split
  · split <;> simp
  · simp

theorem runCall_wrapped (K : Codec σ) (s : State σ) (lz : Nat) (op : Call)
    (hW : s.Writer = CWriter.lz4Writer lz) :
    (runCall K s op).Writer = CWriter.lz4Writer lz ∧
    (runCall K s op).c.Request = s.c.Request ∧
    (runCall K s op).zPool.idle = s.zPool.idle ∧
    (runCall K s op).zPool.fresh = s.zPool.fresh ∧
    (∀ a, ((runCall K s op).zPool.heap a).dst = (s.zPool.heap a).dst) ∧
    ((runCall K s op).zPool.heap lz).st = (feed K (s.zPool.heap lz).st (written [op])).1 ∧
    (runCall K s op).c.Writer.body = s.c.Writer.body ++
      (if (s.zPool.heap lz).dst = Dst.sink then (feed K (s.zPool.heap lz).st (written [op])).2
       else []) ∧
    (runCall K s op).c.Writer.size =
      (if (s.zPool.heap lz).dst = Dst.sink then
        sizeAfter s.c.Writer.size (feed K (s.zPool.heap lz).st (written [op])).2
       else s.c.Writer.size) ∧
    ∃ t, (runCall K s op).trace = s.trace ++ t ∧ ∀ e ∈ t, e.ofChain = true := by
  cases op with
  | Write data =>
    simp only [runCall, State.log, hW, lz4Writer.Write, lz4.Writer.Write, State.setHeaders,
      State.store, emit_Writer, emit_zPool, emit_Request, emit_body, emit_size, emit_trace,
      written, feed, Function.update_same, List.append_nil]
    refine ⟨trivial, trivial, trivial, trivial, ?_, trivial, trivial, trivial, ?_⟩
    · intro a
      by_cases h : a = lz
      · subst h; simp
      · simp [Function.update_noteq h]
    · refine ⟨_, by simp only [List.append_assoc]; rfl, ?_⟩
      intro e he
      simp at he
      rcases he with he | he | he | he
      · subst he; rfl
      · subst he; rfl
      · subst he; rfl
      · rw [he.2]; rfl
  | WriteString str =>
    simp only [runCall, State.log, hW, lz4Writer.WriteString, lz4.Writer.Write,
      State.setHeaders, State.store, emit_Writer, emit_zPool, emit_Request, emit_body, emit_size,
      emit_trace, written, feed, Function.update_same, List.append_nil]
    refine ⟨trivial, trivial, trivial, trivial, ?_, trivial, trivial, trivial, ?_⟩
    · intro a
      by_cases h : a = lz
      · subst h; simp
      · simp [Function.update_noteq h]
    · refine ⟨_, by simp only [List.append_assoc]; rfl, ?_⟩
      intro e he
      simp at he
      rcases he with he | he | he | he
      · subst he; rfl
      · subst he; rfl
      · subst he; rfl
      · rw [he.2]; rfl
  | WriteHeader code =>
    simp only [runCall, State.log, hW, lz4Writer.WriteHeader, State.setHeaders, written, feed,
      sizeAfter, List.append_nil, ite_self, if_true]
    refine ⟨trivial, trivial, trivial, trivial, fun _ => trivial, trivial,
      (sinkWriteHeader_frame _ code).1, (sinkWriteHeader_frame _ code).2.1, ?_⟩
    refine ⟨_, by simp only [List.append_assoc]; rfl, ?_⟩
    intro e he
    simp at he
    rcases he with he | he | he <;> subst he <;> rfl
  | Header key value =>
    simp only [runCall, State.log, cHeader, written, feed, sizeAfter, List.append_nil, ite_self,
      if_true]
    split <;>
      exact ⟨hW, rfl, rfl, rfl, fun _ => rfl, rfl, rfl, rfl, _, rfl, by
        intro e he
        simp at he
        subst he; rfl⟩

/-! ### The whole chain through the wrapper -/

theorem written_cons (op : Call) (calls : List Call) :
    written (op :: calls) = written [op] ++ written calls := by
  cases op <;> simp [written]

theorem feed_append (K : Codec σ) (st : σ) (a b : List (List Nat)) :
    feed K st (a ++ b) =
      ((feed K (feed K st a).1 b).1, (feed K st a).2 ++ (feed K (feed K st a).1 b).2) := by
  induction a generalizing st with
  | nil => simp [feed]
  | cons d ds ih => simp [feed, ih, List.append_assoc]

theorem sizeAfter_ge (size : Int) (z : List Nat) (h : -1 ≤ size) : -1 ≤ sizeAfter size z := by
  unfold sizeAfter ResponseWriter.noWritten
  split
  · exact h
  · split <;> omega

theorem sizeAfter_append (size : Int) (z1 z2 : List Nat) (h : -1 ≤ size) :
    sizeAfter (sizeAfter size z1) z2 = sizeAfter size (z1 ++ z2) := by
  unfold sizeAfter ResponseWriter.noWritten
  by_cases h1 : z1 = []
  · simp [h1]
  · by_cases h2 : z2 = []
    · simp [h1, h2]
    · have hl : 0 < z1.length := List.length_pos.mpr h1
      simp only [h1, h2, if_false, List.append_eq_nil, and_self, List.length_append,
        Nat.cast_add]
      split <;> split <;> omega

theorem runCalls_wrapped (K : Codec σ) (calls : List Call) (s : State σ) (lz : Nat)
    (hW : s.Writer = CWriter.lz4Writer lz) :
    (runCalls K s calls).Writer = CWriter.lz4Writer lz ∧
    (runCalls K s calls).c.Request = s.c.Request ∧
    (runCalls K s calls).zPool.idle = s.zPool.idle ∧
    (runCalls K s calls).zPool.fresh = s.zPool.fresh ∧
    (∀ a, ((runCalls K s calls).zPool.heap a).dst = (s.zPool.heap a).dst) ∧
    ((runCalls K s calls).zPool.heap lz).st = (feed K (s.zPool.heap lz).st (written calls)).1 ∧
    (runCalls K s calls).c.Writer.body = s.c.Writer.body ++
      (if (s.zPool.heap lz).dst = Dst.sink then (feed K (s.zPool.heap lz).st (written calls)).2
       else []) ∧
    (-1 ≤ s.c.Writer.size → (runCalls K s calls).c.Writer.size =
      (if (s.zPool.heap lz).dst = Dst.sink then
        sizeAfter s.c.Writer.size (feed K (s.zPool.heap lz).st (written calls)).2
       else s.c.Writer.size)) ∧
    ∃ t, (runCalls K s calls).trace = s.trace ++ t ∧ ∀ e ∈ t, e.ofChain = true := by
  induction calls generalizing s with
  | nil =>
    refine ⟨hW, rfl, rfl, rfl, fun _ => rfl, rfl, ?_, ?_, [], by simp [runCalls], by simp⟩
    · simp [runCalls, written, feed]
    · intro _
      simp [runCalls, written, feed, sizeAfter]
  | cons op calls ih =>
    obtain ⟨h1, h2, h3, h4, h5, h6, h7, h8, t1, h9, h10⟩ := runCall_wrapped K s lz op hW
    obtain ⟨g1, g2, g3, g4, g5, g6, g7, g8, t2, g9, g10⟩ := ih (runCall K s op) h1
    have hrun : runCalls K s (op :: calls) = runCalls K (runCall K s op) calls := rfl
    rw [hrun, written_cons, feed_append]
    refine ⟨g1, g2.trans h2, g3.trans h3, g4.trans h4, fun a => (g5 a).trans (h5 a), ?_, ?_, ?_,
      t1 ++ t2, ?_, ?_⟩
    · rw [g6, h6]
    · rw [g7, h7, h6, h5 lz]
      split <;> simp
    · intro hs
      have hs1 : -1 ≤ (runCall K s op).c.Writer.size := by
        rw [h8]
        split
        · exact sizeAfter_ge _ _ hs
        · exact hs
      rw [g8 hs1, h8, h6, h5 lz]
      split
      · exact sizeAfter_append _ _ _ hs
      · rfl
    · rw [g9, h9, List.append_assoc]
    · intro e he
      rcases List.mem_append.mp he with he | he
      · exact h10 e he
      · exact g10 e he

/-! ### The steps of `Handle` -/

theorem decompressStep_enter (l : lz4Handler) (c : Context) (zPool : Pool σ) :
    decompressStep l (enter c zPool) =
      { c := afterDecompress l c, Writer := CWriter.original, zPool := zPool,
        trace := if hookFires l c then [Event.decompress] else [] } := by
  unfold decompressStep afterDecompress hookFires enter
  cases l.Options.DecompressFn with
  | none => simp
  | some fn =>
    by_cases h : c.Request.Header.Get "Content-Encoding" = "lz4" <;> simp [h, State.log]

theorem Handle_ineligible (K : Codec σ) (l : lz4Handler) (rest : Chain) (c : Context)
    (zPool : Pool σ) (h : l.shouldCompress (afterDecompress l c).Request = false) :
    l.Handle K rest c zPool =
      ({ c := afterDecompress l c, Writer := CWriter.original, zPool := zPool,
         trace := (if hookFires l c then [Event.decompress] else []) ++
           [Event.shouldCompress false] }, Outcome.returned) := by
  simp [lz4Handler.Handle, decompressStep_enter, h, State.log]

theorem Handle_eligible (K : Codec σ) (l : lz4Handler) (rest : Chain) (c : Context)
    (zPool : Pool σ) (h : l.shouldCompress (afterDecompress l c).Request = true) :
    l.Handle K rest c zPool =
      (runDefers K (runCalls K ((atNext K l c zPool).2.log Event.next) rest.calls)
        (deferStack (atNext K l c zPool).1),
       if rest.panics then Outcome.panicked else Outcome.returned) := by
  simp [lz4Handler.Handle, decompressStep_enter, h, atNext, cNext, deferStack]

theorem atNext_facts (K : Codec σ) (l : lz4Handler) (c : Context) (zPool : Pool σ) :
    (atNext K l c zPool).2.Writer = CWriter.lz4Writer (atNext K l c zPool).1 ∧
    (atNext K l c zPool).2.zPool.heap (atNext K l c zPool).1 = { dst := Dst.sink, st := K.init } ∧
    (atNext K l c zPool).2.zPool.idle = zPool.idle.tail ∧
    (atNext K l c zPool).2.c.Request = (afterDecompress l c).Request ∧
    (atNext K l c zPool).2.c.Writer =
      { (afterDecompress l c).Writer with
        header := ((afterDecompress l c).Writer.header.Set "Content-Encoding" "lz4").Set
          "Vary" "Accept-Encoding" } ∧
    (atNext K l c zPool).2.trace =
      (if hookFires l c then [Event.decompress] else []) ++
        [Event.shouldCompress true, Event.poolGet (atNext K l c zPool).1,
         Event.reset (atNext K l c zPool).1 Dst.sink,
         Event.header "Content-Encoding" "lz4", Event.header "Vary" "Accept-Encoding",
         Event.install (atNext K l c zPool).1] := by
  simp only [atNext, decompressStep_enter, zPoolGet, State.log]
  cases zPool.idle <;>
    simp [lz4.Writer.Reset, State.store, State.log, cHeader, State.setHeaders]

theorem cHeader_Get (key value : String) (s : State σ) :
    (cHeader key value s).c.Writer.header.Get key = value := by
  unfold cHeader
  split
  · rename_i h
    simp [State.setHeaders, Header.Get_Del, h]
  · simp [State.setHeaders, Header.Get_Set]

theorem cHeader_frame (key value : String) (s : State σ) :
    (cHeader key value s).Writer = s.Writer ∧ (cHeader key value s).zPool = s.zPool ∧
    (cHeader key value s).trace = s.trace ∧ (cHeader key value s).c.Request = s.c.Request ∧
    (cHeader key value s).c.Writer.body = s.c.Writer.body ∧
    (cHeader key value s).c.Writer.size = s.c.Writer.size := by
  unfold cHeader
  split <;> simp [State.setHeaders]

/-- What leaving `Handle` does to a state whose writer object `lz` is bound to `dst`. -/
theorem runDefers_facts (K : Codec σ) (s : State σ) (lz : Nat) :
    (runDefers K s (deferStack lz)).Writer = s.Writer ∧
    (runDefers K s (deferStack lz)).c.Request = s.c.Request ∧
    (runDefers K s (deferStack lz)).c.Writer.body = s.c.Writer.body ++
      (if (s.zPool.heap lz).dst = Dst.sink then (K.close (s.zPool.heap lz).st).2 else []) ∧
    (runDefers K s (deferStack lz)).c.Writer.size =
      (if (s.zPool.heap lz).dst = Dst.sink then
        sizeAfter s.c.Writer.size (K.close (s.zPool.heap lz).st).2
       else s.c.Writer.size) ∧
    (runDefers K s (deferStack lz)).c.Writer.header.Get "Content-Length" =
      toString (runDefers K s (deferStack lz)).c.Writer.Size ∧
    (runDefers K s (deferStack lz)).zPool.heap lz = { dst := Dst.discard, st := K.init } ∧
    (runDefers K s (deferStack lz)).zPool.idle = lz :: s.zPool.idle ∧
    (runDefers K s (deferStack lz)).trace =
      s.trace ++ [Event.close lz] ++
        (if (s.zPool.heap lz).dst = Dst.sink ∧ (K.close (s.zPool.heap lz).st).2 ≠ [] then
          [Event.sinkWrite (K.close (s.zPool.heap lz).st).2] else []) ++
        [Event.header "Content-Length" (toString (runDefers K s (deferStack lz)).c.Writer.Size),
         Event.reset lz Dst.discard, Event.poolPut lz] := by
  simp only [runDefers, deferStack, List.foldl_cons, List.foldl_nil, runDeferred, zPoolPut,
    lz4.Writer.Reset, lz4.Writer.Close, State.log, State.store, ResponseWriter.Size]
  refine ⟨?_, ?_, ?_, ?_, ?_, ?_, ?_, ?_⟩
  · simp [(cHeader_frame _ _ _).1, emit_Writer]
  · simp [(cHeader_frame _ _ _).2.2.2.1, emit_Request]
  · simp [(cHeader_frame _ _ _).2.2.2.2.1, emit_body]
  · simp [(cHeader_frame _ _ _).2.2.2.2.2, emit_size]
  · simp only [cHeader_Get, (cHeader_frame _ _ _).2.2.2.2.2]
  · simp
  · simp [(cHeader_frame _ _ _).2.1, emit_zPool]
  · simp [(cHeader_frame _ _ _).2.2.1, (cHeader_frame _ _ _).2.2.2.2.2, emit_trace, emit_size]

theorem ofChain_kinds (e : Event) (h : e.ofChain = true) :
    e.isHeader = false ∧ e.isPoolPut = false ∧ e ≠ Event.decompress ∧
    (∀ lz, e ≠ Event.close lz) := by
  cases e <;> simp_all [Event.ofChain, Event.isHeader, Event.isPoolPut]

/-- The state in which the deferred calls of `Handle` start, on the eligible path. -/
theorem chain_end_facts (K : Codec σ) (l : lz4Handler) (rest : Chain) (c : Context)
    (zPool : Pool σ) :
    (runCalls K ((atNext K l c zPool).2.log Event.next) rest.calls).Writer =
      CWriter.lz4Writer (atNext K l c zPool).1 ∧
    (runCalls K ((atNext K l c zPool).2.log Event.next) rest.calls).c.Request =
      (afterDecompress l c).Request ∧
    (runCalls K ((atNext K l c zPool).2.log Event.next) rest.calls).zPool.idle =
      zPool.idle.tail ∧
    ((runCalls K ((atNext K l c zPool).2.log Event.next) rest.calls).zPool.heap
      (atNext K l c zPool).1).dst = Dst.sink ∧
    ((runCalls K ((atNext K l c zPool).2.log Event.next) rest.calls).zPool.heap
      (atNext K l c zPool).1).st = (feed K K.init (written rest.calls)).1 ∧
    (runCalls K ((atNext K l c zPool).2.log Event.next) rest.calls).c.Writer.body =
      (afterDecompress l c).Writer.body ++ (feed K K.init (written rest.calls)).2 ∧
    (-1 ≤ (afterDecompress l c).Writer.size →
      (runCalls K ((atNext K l c zPool).2.log Event.next) rest.calls).c.Writer.size =
        sizeAfter (afterDecompress l c).Writer.size (feed K K.init (written rest.calls)).2) ∧
    ∃ t, (runCalls K ((atNext K l c zPool).2.log Event.next) rest.calls).trace =
      (atNext K l c zPool).2.trace ++ [Event.next] ++ t ∧ ∀ e ∈ t, e.ofChain = true := by
  obtain ⟨a1, a2, a3, a4, a5, _⟩ := atNext_facts K l c zPool
  have hW : ((atNext K l c zPool).2.log Event.next).Writer =
      CWriter.lz4Writer (atNext K l c zPool).1 := a1
  have hheap : ((atNext K l c zPool).2.log Event.next).zPool.heap (atNext K l c zPool).1 =
      { dst := Dst.sink, st := K.init } := a2
  have hc : ((atNext K l c zPool).2.log Event.next).c = (atNext K l c zPool).2.c := rfl
  have hp : ((atNext K l c zPool).2.log Event.next).zPool = (atNext K l c zPool).2.zPool := rfl
  obtain ⟨g1, g2, g3, _, g5, g6, g7, g8, t, g9, g10⟩ :=
    runCalls_wrapped K rest.calls ((atNext K l c zPool).2.log Event.next) _ hW
  have g5a := g5 (atNext K l c zPool).1
  rw [hheap] at g5a g6 g7 g8
  rw [hc] at g2 g7 g8
  rw [hp] at g3
  rw [a5] at g7 g8
  refine ⟨g1, g2.trans a4, g3.trans a3, g5a, g6, ?_, ?_, t, ?_, g10⟩
  · simpa using g7
  · intro hs
    simpa using g8 hs
  · rw [g9]
    rfl

/-- The eligible path of `Handle`, start to end. -/
theorem Handle_final (K : Codec σ) (l : lz4Handler) (rest : Chain) (c : Context)
    (zPool : Pool σ) (h : l.shouldCompress (afterDecompress l c).Request = true) :
    (l.Handle K rest c zPool).1.Writer = CWriter.lz4Writer (atNext K l c zPool).1 ∧
    (l.Handle K rest c zPool).1.c.Writer.body =
      (afterDecompress l c).Writer.body ++ encodeAll K (written rest.calls) ∧
    (-1 ≤ (afterDecompress l c).Writer.size →
      (l.Handle K rest c zPool).1.c.Writer.size =
        sizeAfter (afterDecompress l c).Writer.size (encodeAll K (written rest.calls))) ∧
    (l.Handle K rest c zPool).1.c.Writer.header.Get "Content-Length" =
      toString (l.Handle K rest c zPool).1.c.Writer.Size ∧
    (l.Handle K rest c zPool).1.zPool.heap (atNext K l c zPool).1 =
      { dst := Dst.discard, st := K.init } ∧
    (l.Handle K rest c zPool).1.zPool.idle = (atNext K l c zPool).1 :: zPool.idle.tail ∧
    ∃ t, (∀ e ∈ t, e.ofChain = true) ∧
      (l.Handle K rest c zPool).1.trace =
        (if hookFires l c then [Event.decompress] else []) ++
        [Event.shouldCompress true, Event.poolGet (atNext K l c zPool).1,
         Event.reset (atNext K l c zPool).1 Dst.sink,
         Event.header "Content-Encoding" "lz4", Event.header "Vary" "Accept-Encoding",
         Event.install (atNext K l c zPool).1, Event.next] ++ t ++
        [Event.close (atNext K l c zPool).1] ++
        (if (K.close (feed K K.init (written rest.calls)).1).2 ≠ [] then
          [Event.sinkWrite (K.close (feed K K.init (written rest.calls)).1).2] else []) ++
        [Event.header "Content-Length" (toString (l.Handle K rest c zPool).1.c.Writer.Size),
         Event.reset (atNext K l c zPool).1 Dst.discard,
         Event.poolPut (atNext K l c zPool).1] := by
  obtain ⟨_, _, _, _, _, a6⟩ := atNext_facts K l c zPool
  obtain ⟨b1, _, b3, b4, b5, b6, b7, t, b8, b9⟩ := chain_end_facts K l rest c zPool
  obtain ⟨d1, _, d3, d4, d5, d6, d7, d8⟩ :=
    runDefers_facts K (runCalls K ((atNext K l c zPool).2.log Event.next) rest.calls)
      (atNext K l c zPool).1
  rw [Handle_eligible K l rest c zPool h]
  rw [b4, b5] at d3 d4 d8
  simp only [if_true, true_and] at d3 d4 d8
  refine ⟨d1.trans b1, ?_, ?_, d5, d6, ?_, t, b9, ?_⟩
  · rw [d3, b6, encodeAll, List.append_assoc]
  · intro hs
    change (runDefers K _ _).c.Writer.size = _
    rw [d4, b7 hs, sizeAfter_append _ _ _ hs, encodeAll]
  · rw [d7, b3]
  · rw [d8, b8, a6]
    simp only [List.append_assoc, List.cons_append, List.nil_append, List.singleton_append]

/-! ### The concrete codec -/

theorem storeCodec_feed (st : List Nat) (chunks : List (List Nat)) :
    feed storeCodec st chunks = (st ++ chunks.flatten, []) := by
  induction chunks generalizing st with
  | nil => simp [feed]
  | cons d ds ih =>
    have hw : storeCodec.write st d = (st ++ d, []) := rfl
    simp [feed, ih, hw]

theorem storeCodec_roundtrip (chunks : List (List Nat)) :
    storeCodec.decode (encodeAll storeCodec chunks) = some chunks.flatten := by
  simp [encodeAll, storeCodec_feed]
  simp [storeCodec]

/-! ### Calls on the original sink -/

theorem runCalls_original (K : Codec σ) (later : List Call) (s : State σ)
    (hW : s.Writer = CWriter.original) :
    (runCalls K s later).Writer = CWriter.original ∧
    (runCalls K s later).c.Writer.header = headersAfter later s.c.Writer.header ∧
    (runCalls K s later).zPool = s.zPool := by
  induction later generalizing s with
  | nil => exact ⟨hW, rfl, rfl⟩
  | cons op later ih =>
    have hrun : runCalls K s (op :: later) = runCalls K (runCall K s op) later := rfl
    have hstep : (runCall K s op).Writer = CWriter.original ∧
        headersAfter (op :: later) s.c.Writer.header =
          headersAfter later (runCall K s op).c.Writer.header ∧
        (runCall K s op).zPool = s.zPool := by
      cases op with
      | Header k v =>
        simp only [runCall, cHeader, State.log, State.setHeaders, headersAfter]
        split <;> exact ⟨hW, rfl, rfl⟩
      | Write data =>
        simp [runCall, hW, State.log, ResponseWriter.Write, ResponseWriter.WriteHeaderNow,
          headersAfter]
        split <;> rfl
      | WriteString str =>
        simp [runCall, hW, State.log, ResponseWriter.Write, ResponseWriter.WriteHeaderNow,
          headersAfter]
        split <;> rfl
      | WriteHeader code =>
        simp [runCall, hW, State.log, (sinkWriteHeader_frame _ code).2.2, headersAfter]
    obtain ⟨g1, g2, g3⟩ := ih (runCall K s op) hstep.1
    rw [hrun]
    exact ⟨g1, g2.trans hstep.2.1.symm, g3.trans hstep.2.2⟩

/-! ## The claims -/

/-- C1: `shouldCompress` is true exactly when Accept-Encoding contains "lz4", Connection does
not contain "Upgrade", Content-Type does not contain "text/event-stream", and none of the three
exclusion collections contains the extension, respectively the path. -/
theorem shouldCompress_iff (l : lz4Handler) (req : Request) :
    l.shouldCompress req = true ↔
      (stringsContains (req.Header.Get "Accept-Encoding") "lz4" = true ∧
       stringsContains (req.Header.Get "Connection") "Upgrade" = false ∧
       stringsContains (req.Header.Get "Content-Type") "text/event-stream" = false ∧
       l.Options.ExcludedExtensions.Contains (filepathExt req.Path) = false ∧
       l.Options.ExcludedPaths.Contains req.Path = false ∧
       l.Options.ExcludedPathesRegexs.Contains req.Path = false) := by
  simp only [lz4Handler.shouldCompress]
  generalize stringsContains (req.Header.Get "Accept-Encoding") "lz4" = a
  generalize stringsContains (req.Header.Get "Connection") "Upgrade" = b
  generalize stringsContains (req.Header.Get "Content-Type") "text/event-stream" = c
  generalize l.Options.ExcludedExtensions.Contains (filepathExt req.Path) = d
  generalize l.Options.ExcludedPaths.Contains req.Path = e
  generalize l.Options.ExcludedPathesRegexs.Contains req.Path = f
  cases a <;> cases b <;> cases c <;> cases d <;> cases e <;> cases f <;> simp

/-- C2, as stated, fails: on `POST /` with `Content-Encoding: lz4` and no `Accept-Encoding`,
`shouldCompress` is false before and after the hook, yet `Handle` has called the configured hook,
and the response's status and Content-Length header are not what they were before. -/
theorem ineligible_response_changed_by_hook :
    rejectingHandler.shouldCompress postRoot.Request = false ∧
    rejectingHandler.shouldCompress (afterDecompress rejectingHandler postRoot).Request = false ∧
    (rejectingHandler.Handle storeCodec testChain postRoot emptyPool).1.c.Writer.header.Get
        "Content-Length" ≠ postRoot.Writer.header.Get "Content-Length" ∧
    (rejectingHandler.Handle storeCodec testChain postRoot emptyPool).1.c.Writer.status ≠
      postRoot.Writer.status := by
  decide

/-- C2, amended: when `shouldCompress` is false for the request the hook step leaves, `Handle`
returns having done nothing but that step: `c.Writer` is still the original sink, the pool and
its writer objects are untouched, no writer was taken from the pool, and request and response
are exactly what the hook step left; when no hook is called (none configured, or
Content-Encoding is not "lz4") they are exactly what they were before `Handle`, the headers
Content-Encoding, Vary and Content-Length included. Calls made through the context afterwards
meet the original sink, where only `c.Header` changes the header map, so a Content-Length set
downstream stays. -/
theorem ineligible_frame (K : Codec σ) (l : lz4Handler) (rest : Chain) (c : Context)
    (zPool : Pool σ) (h : l.shouldCompress (afterDecompress l c).Request = false) :
    (l.Handle K rest c zPool).2 = Outcome.returned ∧
    (l.Handle K rest c zPool).1.Writer = CWriter.original ∧
    (l.Handle K rest c zPool).1.zPool = zPool ∧
    (∀ lz, Event.poolGet lz ∉ (l.Handle K rest c zPool).1.trace) ∧
    (l.Handle K rest c zPool).1.c = afterDecompress l c ∧
    (∀ later : List Call,
      (runCalls K (l.Handle K rest c zPool).1 later).Writer = CWriter.original ∧
      (runCalls K (l.Handle K rest c zPool).1 later).c.Writer.header =
        headersAfter later (afterDecompress l c).Writer.header ∧
      (runCalls K (l.Handle K rest c zPool).1 later).zPool = zPool) ∧
    (hookFires l c = false →
      (l.Handle K rest c zPool).1.c = c ∧
      (l.Handle K rest c zPool).1.c.Writer.header.Get "Content-Encoding" =
        c.Writer.header.Get "Content-Encoding" ∧
      (l.Handle K rest c zPool).1.c.Writer.header.Get "Vary" = c.Writer.header.Get "Vary" ∧
      (l.Handle K rest c zPool).1.c.Writer.header.Get "Content-Length" =
        c.Writer.header.Get "Content-Length") := by
  rw [Handle_ineligible K l rest c zPool h]
  refine ⟨rfl, rfl, rfl, ?_, rfl, ?_, ?_⟩
  · intro lz
    by_cases hf : hookFires l c = true <;> simp [hf]
  · intro later
    exact runCalls_original K later _ rfl
  · intro hf
    have hc : afterDecompress l c = c := by
      unfold hookFires at hf
      unfold afterDecompress
      cases hfn : l.Options.DecompressFn with
      | none => rfl
      | some fn =>
        by_cases hce : c.Request.Header.Get "Content-Encoding" = "lz4"
        · simp [hfn, hce] at hf
        · simp [hce]
    rw [hc]
    exact ⟨rfl, rfl, rfl, rfl⟩

/-- Witness for C2 (amended): `GET /` without `Accept-Encoding`, then the test server's chain
run downstream: the sink is untouched by `Handle`, and the Content-Length the chain sets is
still there after its writes. -/
theorem ineligible_frame_witness :
    plainHandler.shouldCompress (afterDecompress plainHandler plainRoot).Request = false ∧
    (plainHandler.Handle storeCodec testChain plainRoot emptyPool).1.c.Writer = freshSink ∧
    (runCalls storeCodec (plainHandler.Handle storeCodec testChain plainRoot emptyPool).1
      testChain.calls).c.Writer.header.Get "Content-Length" = "18" :=
  ⟨by decide,
   congrArg Context.Writer
     (ineligible_frame storeCodec plainHandler testChain plainRoot emptyPool
       (by decide)).2.2.2.2.1,
   by decide⟩

/-- C3: on an eligible request, with a codec whose decoder undoes write-then-close, the bytes
that reach the original sink once the wrapper is installed decode to the concatenation, in issue
order, of everything the chain wrote through `Write` and `WriteString`; when the sink held no
byte before, these are all its bytes. -/
theorem response_decodes_to_written (K : Codec σ)
    (hK : ∀ chunks, K.decode (encodeAll K chunks) = some chunks.flatten)
    (l : lz4Handler) (rest : Chain) (c : Context) (zPool : Pool σ)
    (h : l.shouldCompress (afterDecompress l c).Request = true) :
    (∃ z, (l.Handle K rest c zPool).1.c.Writer.body = (afterDecompress l c).Writer.body ++ z ∧
      K.decode z = some (written rest.calls).flatten) ∧
    ((afterDecompress l c).Writer.body = [] →
      K.decode (l.Handle K rest c zPool).1.c.Writer.body =
        some (written rest.calls).flatten) := by
  refine ⟨⟨encodeAll K (written rest.calls), (Handle_final K l rest c zPool h).2.1, hK _⟩, ?_⟩
  intro hb
  rw [(Handle_final K l rest c zPool h).2.1, hb, List.nil_append]
  exact hK _

/-- Witness for C3: the test server's chain on `GET /` with `Accept-Encoding: lz4`. -/
theorem response_decodes_to_written_witness :
    (∀ chunks, storeCodec.decode (encodeAll storeCodec chunks) = some chunks.flatten) ∧
    plainHandler.shouldCompress (afterDecompress plainHandler getRoot).Request = true ∧
    storeCodec.decode (plainHandler.Handle storeCodec testChain getRoot emptyPool).1.c.Writer.body
      = some (bytesOf "Lz4 Test Response ") :=
  ⟨storeCodec_roundtrip, by decide,
   (response_decodes_to_written storeCodec storeCodec_roundtrip plainHandler testChain getRoot
     emptyPool (by decide)).2 rfl⟩

/-- C4: on an eligible request, when `Handle` is done the Content-Length response header is the
decimal rendering of the original sink's `Size()`; the bytes the sink received are the compressed
body, and for a sink in a regular state (count at least -1) the count is the one that follows
from sending the compressed body, not the payload. -/
theorem content_length_is_sink_size (K : Codec σ) (l : lz4Handler) (rest : Chain) (c : Context)
    (zPool : Pool σ) (h : l.shouldCompress (afterDecompress l c).Request = true) :
    (l.Handle K rest c zPool).1.c.Writer.header.Get "Content-Length" =
      toString (l.Handle K rest c zPool).1.c.Writer.Size ∧
    (l.Handle K rest c zPool).1.c.Writer.body =
      (afterDecompress l c).Writer.body ++ encodeAll K (written rest.calls) ∧
    (-1 ≤ (afterDecompress l c).Writer.size →
      (l.Handle K rest c zPool).1.c.Writer.Size =
        sizeAfter (afterDecompress l c).Writer.size (encodeAll K (written rest.calls))) :=
  ⟨(Handle_final K l rest c zPool h).2.2.2.1, (Handle_final K l rest c zPool h).2.1,
   (Handle_final K l rest c zPool h).2.2.1⟩

/-- Witness for C4: the test server's chain on `GET /`: 19 compressed bytes for a payload
of 18. -/
theorem content_length_is_sink_size_witness :
    plainHandler.shouldCompress (afterDecompress plainHandler getRoot).Request = true ∧
    (plainHandler.Handle storeCodec testChain getRoot emptyPool).1.c.Writer.header.Get
      "Content-Length" =
      toString (plainHandler.Handle storeCodec testChain getRoot emptyPool).1.c.Writer.Size ∧
    (plainHandler.Handle storeCodec testChain getRoot emptyPool).1.c.Writer.Size = 19 ∧
    (written testChain.calls).flatten.length = 18 :=
  ⟨by decide,
   (content_length_is_sink_size storeCodec plainHandler testChain getRoot emptyPool
     (by decide)).1,
   by decide, by decide⟩

/-- C5, as stated, fails: on `POST /` with `Accept-Encoding: lz4` and `Content-Encoding: lz4`
the request is eligible, and the configured hook, which `Handle` calls first, has sent three
bytes to the sink in the state `Handle` tests eligibility in, where neither Content-Encoding nor
Vary is set; these bytes stay in front of the compressed body. -/
theorem hook_bytes_precede_headers :
    writingHandler.shouldCompress (afterDecompress writingHandler bothRoot).Request = true ∧
    bothRoot.Writer.body = [] ∧
    (decompressStep writingHandler (enter bothRoot emptyPool)).c.Writer.body = [1, 2, 3] ∧
    (decompressStep writingHandler (enter bothRoot emptyPool)).c.Writer.header.Get
      "Content-Encoding" = "" ∧
    (decompressStep writingHandler (enter bothRoot emptyPool)).c.Writer.header.Get "Vary" = "" ∧
    (writingHandler.Handle storeCodec testChain bothRoot emptyPool).1.c.Writer.body =
      [1, 2, 3] ++ encodeAll storeCodec (written testChain.calls) := by
  decide

/-- C5, amended: on an eligible request `Handle` sets Content-Encoding to "lz4" and Vary to
"Accept-Encoding" once each, right before it installs the wrapper and calls the rest of the
chain: both headers are set in the state `c.Next()` starts in, between the hook step and that
state `Handle` sends no byte, so no byte of the rest of the chain reaches the sink before both
headers are set (and, when no hook is called, no byte at all); in the steps of `Handle` no write
to the sink precedes the two calls, and the only other header call of `Handle` is the final
Content-Length. Bytes the decompression hook itself sends are not covered. -/
theorem headers_set_before_next (K : Codec σ) (l : lz4Handler) (rest : Chain) (c : Context)
    (zPool : Pool σ) (h : l.shouldCompress (afterDecompress l c).Request = true) :
    l.Handle K rest c zPool =
      (runDefers K (cNext K rest (atNext K l c zPool).2).1 (deferStack (atNext K l c zPool).1),
       (cNext K rest (atNext K l c zPool).2).2) ∧
    (atNext K l c zPool).2.c.Writer.header.Get "Content-Encoding" = "lz4" ∧
    (atNext K l c zPool).2.c.Writer.header.Get "Vary" = "Accept-Encoding" ∧
    (atNext K l c zPool).2.c.Writer.body = (afterDecompress l c).Writer.body ∧
    (hookFires l c = false → (atNext K l c zPool).2.c.Writer.body = c.Writer.body) ∧
    (l.Handle K rest c zPool).1.c.Writer.body =
      (atNext K l c zPool).2.c.Writer.body ++ encodeAll K (written rest.calls) ∧
    ∃ pre post,
      (l.Handle K rest c zPool).1.trace =
        pre ++ [Event.header "Content-Encoding" "lz4", Event.header "Vary" "Accept-Encoding",
          Event.install (atNext K l c zPool).1, Event.next] ++ post ∧
      (∀ e ∈ pre, e.isSinkWrite = false ∧ e.isHeader = false) ∧
      (∀ e ∈ post, e.isHeader = true →
        e = Event.header "Content-Length"
          (toString (l.Handle K rest c zPool).1.c.Writer.Size)) := by
  obtain ⟨_, _, _, _, a5, _⟩ := atNext_facts K l c zPool
  obtain ⟨_, fbody, _, _, _, _, t, ht, htr⟩ := Handle_final K l rest c zPool h
  refine ⟨Handle_eligible K l rest c zPool h, ?_, ?_, ?_, ?_, ?_, ?_⟩
  · rw [a5]
    exact (Header.Get_Set_other _ _ _ _ (by decide)).trans (Header.Get_Set _ _ _)
  · rw [a5]
    exact Header.Get_Set _ _ _
  · rw [a5]
  · intro hf
    rw [a5]
    have hc : afterDecompress l c = c := by
      unfold hookFires at hf
      unfold afterDecompress
      cases hfn : l.Options.DecompressFn with
      | none => rfl
      | some fn =>
        by_cases hce : c.Request.Header.Get "Content-Encoding" = "lz4"
        · simp [hfn, hce] at hf
        · simp [hce]
    rw [hc]
  · rw [fbody, a5]
  · refine ⟨(if hookFires l c then [Event.decompress] else []) ++
        [Event.shouldCompress true, Event.poolGet (atNext K l c zPool).1,
         Event.reset (atNext K l c zPool).1 Dst.sink],
      t ++ [Event.close (atNext K l c zPool).1] ++
        (if (K.close (feed K K.init (written rest.calls)).1).2 ≠ [] then
          [Event.sinkWrite (K.close (feed K K.init (written rest.calls)).1).2] else []) ++
        [Event.header "Content-Length" (toString (l.Handle K rest c zPool).1.c.Writer.Size),
         Event.reset (atNext K l c zPool).1 Dst.discard,
         Event.poolPut (atNext K l c zPool).1], ?_, ?_, ?_⟩
    · rw [htr]
      simp only [List.append_assoc, List.cons_append, List.nil_append, List.singleton_append]
    · intro e he
      rcases List.mem_append.mp he with he | he
      · split at he
        · simp at he
          subst he
          exact ⟨rfl, rfl⟩
        · simp at he
      · simp at he
        rcases he with he | he | he <;> subst he <;> exact ⟨rfl, rfl⟩
    · intro e he hh
      simp only [List.mem_append, List.mem_cons, List.mem_singleton, List.not_mem_nil,
        or_false] at he
      rcases he with ((he | he) | he) | he
      · rw [(ofChain_kinds e (ht e he)).1] at hh
        exact absurd hh (by decide)
      · subst he
        exact absurd hh (by simp [Event.isHeader])
      · split at he
        · simp at he
          subst he
          exact absurd hh (by simp [Event.isHeader])
        · simp at he
      · rcases he with he | he | he
        · exact he
        · subst he
          exact absurd hh (by simp [Event.isHeader])
        · subst he
          exact absurd hh (by simp [Event.isHeader])

/-- Witness for C5 (amended): the test server's chain on `POST /` with `Accept-Encoding: lz4`
and `Content-Encoding: lz4`, under a hook that has sent three bytes: both headers are set when
`c.Next()` starts, and the sink then holds the hook's three bytes and nothing more. -/
theorem headers_set_before_next_witness :
    writingHandler.shouldCompress (afterDecompress writingHandler bothRoot).Request = true ∧
    (atNext storeCodec writingHandler bothRoot emptyPool).2.c.Writer.header.Get
      "Content-Encoding" = "lz4" ∧
    (atNext storeCodec writingHandler bothRoot emptyPool).2.c.Writer.header.Get "Vary"
      = "Accept-Encoding" ∧
    (atNext storeCodec writingHandler bothRoot emptyPool).2.c.Writer.body = [1, 2, 3] :=
  ⟨by decide,
   (headers_set_before_next storeCodec writingHandler testChain bothRoot emptyPool
     (by decide)).2.1,
   (headers_set_before_next storeCodec writingHandler testChain bothRoot emptyPool
     (by decide)).2.2.1,
   (headers_set_before_next storeCodec writingHandler testChain bothRoot emptyPool
     (by decide)).2.2.2.1⟩

/-- C6: each of `lz4Writer.Write`, `WriteString` and `WriteHeader` first deletes the
Content-Length response header; `Write` and `WriteString` then hand exactly the given bytes to
the `lz4.Writer`, and the sink receives nothing but what that writer emits to it; `WriteHeader`
then passes the same status code to the original sink's `WriteHeader`. -/
theorem wrapper_methods (K : Codec σ) (lz : Nat) (s : State σ) (data : List Nat) (str : String)
    (code : Int) :
    ((lz4Writer.Write K lz data s).c.Writer.header = s.c.Writer.header.Del "Content-Length" ∧
     (lz4Writer.Write K lz data s).c.Writer.header.Get "Content-Length" = "" ∧
     ((lz4Writer.Write K lz data s).zPool.heap lz).st =
       (K.write (s.zPool.heap lz).st data).1 ∧
     (lz4Writer.Write K lz data s).c.Writer.body = s.c.Writer.body ++
       (if (s.zPool.heap lz).dst = Dst.sink then (K.write (s.zPool.heap lz).st data).2
        else []) ∧
     (lz4Writer.Write K lz data s).trace = s.trace ++
       [Event.delHeader "Content-Length", Event.compress lz data] ++
       (if (s.zPool.heap lz).dst = Dst.sink ∧ (K.write (s.zPool.heap lz).st data).2 ≠ [] then
         [Event.sinkWrite (K.write (s.zPool.heap lz).st data).2] else [])) ∧
    ((lz4Writer.WriteString K lz str s).c.Writer.header =
       s.c.Writer.header.Del "Content-Length" ∧
     (lz4Writer.WriteString K lz str s).c.Writer.header.Get "Content-Length" = "" ∧
     ((lz4Writer.WriteString K lz str s).zPool.heap lz).st =
       (K.write (s.zPool.heap lz).st (bytesOf str)).1 ∧
     (lz4Writer.WriteString K lz str s).c.Writer.body = s.c.Writer.body ++
       (if (s.zPool.heap lz).dst = Dst.sink then (K.write (s.zPool.heap lz).st (bytesOf str)).2
        else []) ∧
     (lz4Writer.WriteString K lz str s).trace = s.trace ++
       [Event.delHeader "Content-Length", Event.compress lz (bytesOf str)] ++
       (if (s.zPool.heap lz).dst = Dst.sink ∧
           (K.write (s.zPool.heap lz).st (bytesOf str)).2 ≠ [] then
         [Event.sinkWrite (K.write (s.zPool.heap lz).st (bytesOf str)).2] else [])) ∧
    ((lz4Writer.WriteHeader code s).c.Writer =
       ({ s.c.Writer with header := s.c.Writer.header.Del "Content-Length" }).WriteHeader code ∧
     (lz4Writer.WriteHeader code s).c.Writer.header.Get "Content-Length" = "" ∧
     (lz4Writer.WriteHeader code s).c.Writer.body = s.c.Writer.body ∧
     (lz4Writer.WriteHeader code s).zPool = s.zPool ∧
     (lz4Writer.WriteHeader code s).trace = s.trace ++
       [Event.delHeader "Content-Length", Event.sinkWriteHeader code]) := by
  refine ⟨⟨?_, ?_, ?_, ?_, ?_⟩, ⟨?_, ?_, ?_, ?_, ?_⟩, ⟨?_, ?_, ?_, ?_, ?_⟩⟩
  · simp [lz4Writer.Write, lz4.Writer.Write, emit_header, State.log, State.store,
      State.setHeaders]
  · simp [lz4Writer.Write, lz4.Writer.Write, emit_header, State.log, State.store,
      State.setHeaders, Header.Get_Del]
  · simp [lz4Writer.Write, lz4.Writer.Write, emit_zPool, State.log, State.store,
      State.setHeaders]
  · simp [lz4Writer.Write, lz4.Writer.Write, emit_body, State.log, State.store,
      State.setHeaders]
  · simp [lz4Writer.Write, lz4.Writer.Write, emit_trace, State.log, State.store,
      State.setHeaders]
  · simp [lz4Writer.WriteString, lz4.Writer.Write, emit_header, State.log, State.store,
      State.setHeaders]
  · simp [lz4Writer.WriteString, lz4.Writer.Write, emit_header, State.log, State.store,
      State.setHeaders, Header.Get_Del]
  · simp [lz4Writer.WriteString, lz4.Writer.Write, emit_zPool, State.log, State.store,
      State.setHeaders]
  · simp [lz4Writer.WriteString, lz4.Writer.Write, emit_body, State.log, State.store,
      State.setHeaders]
  · simp [lz4Writer.WriteString, lz4.Writer.Write, emit_trace, State.log, State.store,
      State.setHeaders]
  · simp [lz4Writer.WriteHeader, State.log, State.setHeaders]
  · simp only [lz4Writer.WriteHeader, State.log, State.setHeaders]
    rw [(sinkWriteHeader_frame _ code).2.2]
    exact Header.Get_Del _ _
  · simp only [lz4Writer.WriteHeader, State.log, State.setHeaders]
    rw [(sinkWriteHeader_frame _ code).1]
  · simp [lz4Writer.WriteHeader, State.log, State.setHeaders]
  · simp [lz4Writer.WriteHeader, State.log, State.setHeaders]

/-- C8: `Handle` calls the decompression hook once when a hook is configured and the request's
Content-Encoding equals "lz4", and not at all otherwise; the call is the first step, before
`shouldCompress` is evaluated (on the request the hook leaves), whatever its result. -/
theorem hook_called_once_iff (K : Codec σ) (l : lz4Handler) (rest : Chain) (c : Context)
    (zPool : Pool σ) :
    ((l.Handle K rest c zPool).1.trace.count Event.decompress = 1 ↔
      (l.Options.DecompressFn.isSome = true ∧
        c.Request.Header.Get "Content-Encoding" = "lz4")) ∧
    (l.Handle K rest c zPool).1.trace.count Event.decompress ≤ 1 ∧
    ∃ tail, (l.Handle K rest c zPool).1.trace =
        (if hookFires l c then [Event.decompress] else []) ++
          Event.shouldCompress (l.shouldCompress (afterDecompress l c).Request) :: tail ∧
      Event.decompress ∉ tail := by
  have key : ∃ tail, (l.Handle K rest c zPool).1.trace =
        (if hookFires l c then [Event.decompress] else []) ++
          Event.shouldCompress (l.shouldCompress (afterDecompress l c).Request) :: tail ∧
      Event.decompress ∉ tail := by
    cases h : l.shouldCompress (afterDecompress l c).Request with
    | false =>
      refine ⟨[], ?_, by simp⟩
      rw [Handle_ineligible K l rest c zPool h]
    | true =>
      obtain ⟨_, _, _, _, _, _, t, ht, htr⟩ := Handle_final K l rest c zPool h
      refine ⟨_, by rw [htr]; simp only [List.append_assoc, List.cons_append,
        List.nil_append, List.singleton_append]; rfl, ?_⟩
      intro hmem
      simp only [List.mem_append, List.mem_cons, List.mem_singleton, List.not_mem_nil,
        or_false] at hmem
      rcases hmem with hmem | hmem | hmem | hmem | hmem | hmem | hmem | hmem | hmem | hmem
      · cases hmem
      · cases hmem
      · cases hmem
      · cases hmem
      · cases hmem
      · cases hmem
      · exact (ofChain_kinds _ (ht _ hmem)).2.2.1 rfl
      · cases hmem
      · split at hmem <;> simp at hmem
      · rcases hmem with hmem | hmem | hmem <;> cases hmem
  obtain ⟨tail, htr, hnot⟩ := key
  have hcount : (l.Handle K rest c zPool).1.trace.count Event.decompress =
      if hookFires l c then 1 else 0 := by
    rw [htr, List.count_append, List.count_cons, List.count_eq_zero.mpr hnot]
    by_cases hf : hookFires l c = true <;> simp [hf]
  refine ⟨?_, ?_, tail, htr, hnot⟩
  · rw [hcount]
    unfold hookFires
    by_cases h1 : l.Options.DecompressFn.isSome = true <;>
      by_cases h2 : c.Request.Header.Get "Content-Encoding" = "lz4" <;> simp [h1, h2]
  · rw [hcount]
    split <;> omega

/-- C9: on an eligible request, whether the rest of the chain returns or panics, `Handle`
closes the writer object, then rebinds it to the discard sink, then puts it in the pool, these
last two as its final steps; nothing is put in the pool before, the pooled object is bound to the
discard sink, and the outcome of the chain is passed on. -/
theorem release_order (K : Codec σ) (l : lz4Handler) (rest : Chain) (c : Context)
    (zPool : Pool σ) (h : l.shouldCompress (afterDecompress l c).Request = true) :
    (l.Handle K rest c zPool).2 =
      (if rest.panics then Outcome.panicked else Outcome.returned) ∧
    ((l.Handle K rest c zPool).1.zPool.heap (atNext K l c zPool).1).dst = Dst.discard ∧
    (l.Handle K rest c zPool).1.zPool.idle = (atNext K l c zPool).1 :: zPool.idle.tail ∧
    ∃ pre mid,
      (l.Handle K rest c zPool).1.trace =
        pre ++ [Event.close (atNext K l c zPool).1] ++ mid ++
          [Event.reset (atNext K l c zPool).1 Dst.discard,
           Event.poolPut (atNext K l c zPool).1] ∧
      (∀ e ∈ pre ++ mid, e.isPoolPut = false) ∧
      (∀ e ∈ pre ++ mid, e ≠ Event.close (atNext K l c zPool).1) := by
  obtain ⟨_, _, _, _, f5, f6, t, ht, htr⟩ := Handle_final K l rest c zPool h
  refine ⟨?_, by rw [f5], f6, ?_⟩
  · rw [Handle_eligible K l rest c zPool h]
  · refine ⟨(if hookFires l c then [Event.decompress] else []) ++
        [Event.shouldCompress true, Event.poolGet (atNext K l c zPool).1,
         Event.reset (atNext K l c zPool).1 Dst.sink,
         Event.header "Content-Encoding" "lz4", Event.header "Vary" "Accept-Encoding",
         Event.install (atNext K l c zPool).1, Event.next] ++ t,
      (if (K.close (feed K K.init (written rest.calls)).1).2 ≠ [] then
          [Event.sinkWrite (K.close (feed K K.init (written rest.calls)).1).2] else []) ++
        [Event.header "Content-Length" (toString (l.Handle K rest c zPool).1.c.Writer.Size)],
      ?_, ?_, ?_⟩
    · rw [htr]
      simp only [List.append_assoc, List.cons_append, List.nil_append, List.singleton_append]
    · intro e he
      simp only [List.mem_append, List.mem_cons, List.mem_singleton, List.not_mem_nil,
        or_false] at he
      rcases he with ((he | he) | he) | he | he
      · split at he <;> simp at he
        subst he; rfl
      · rcases he with he | he | he | he | he | he | he <;> subst he <;> rfl
      · exact (ofChain_kinds e (ht e he)).2.1
      · split at he <;> simp at he
        subst he; rfl
      · subst he; rfl
    · intro e he
      simp only [List.mem_append, List.mem_cons, List.mem_singleton, List.not_mem_nil,
        or_false] at he
      rcases he with ((he | he) | he) | he | he
      · split at he <;> simp at he
        subst he; simp
      · rcases he with he | he | he | he | he | he | he <;> subst he <;> simp
      · exact (ofChain_kinds e (ht e he)).2.2.2 _
      · split at he <;> simp at he
        subst he; simp
      · subst he; simp

/-- Witness for C9: a chain that writes two chunks and panics, on `GET /` with
`Accept-Encoding: lz4`. -/
theorem release_order_witness :
    plainHandler.shouldCompress (afterDecompress plainHandler getRoot).Request = true ∧
    panickingChain.panics = true ∧
    (plainHandler.Handle storeCodec panickingChain getRoot emptyPool).2 = Outcome.panicked ∧
    ((plainHandler.Handle storeCodec panickingChain getRoot emptyPool).1.zPool.heap
      (atNext storeCodec plainHandler getRoot emptyPool).1).dst = Dst.discard :=
  ⟨by decide, rfl,
   (release_order storeCodec plainHandler panickingChain getRoot emptyPool (by decide)).1,
   (release_order storeCodec plainHandler panickingChain getRoot emptyPool (by decide)).2.1⟩

/-- C10: on an eligible request, when `Handle` is done `c.Writer` is still the wrapper, the
wrapper's writer object is bound to the discard sink, and whatever is then written through
`c.Writer` adds no byte to the original sink. -/
theorem wrapper_left_installed (K : Codec σ) (l : lz4Handler) (rest : Chain) (c : Context)
    (zPool : Pool σ) (h : l.shouldCompress (afterDecompress l c).Request = true) :
    (l.Handle K rest c zPool).1.Writer = CWriter.lz4Writer (atNext K l c zPool).1 ∧
    ((l.Handle K rest c zPool).1.zPool.heap (atNext K l c zPool).1).dst = Dst.discard ∧
    ∀ later : List Call,
      (runCalls K (l.Handle K rest c zPool).1 later).c.Writer.body =
        (l.Handle K rest c zPool).1.c.Writer.body := by
  obtain ⟨f1, _, _, _, f5, _⟩ := Handle_final K l rest c zPool h
  refine ⟨f1, by rw [f5], ?_⟩
  intro later
  obtain ⟨_, _, _, _, _, _, g7, _⟩ :=
    runCalls_wrapped K later (l.Handle K rest c zPool).1 _ f1
  rw [g7, f5]
  simp

/-- Witness for C10: after the test server's chain on `GET /`, a later write of three bytes
through `c.Writer` leaves the sink's bytes as they were. -/
theorem wrapper_left_installed_witness :
    plainHandler.shouldCompress (afterDecompress plainHandler getRoot).Request = true ∧
    (runCalls storeCodec (plainHandler.Handle storeCodec testChain getRoot emptyPool).1
        [Call.Write [7, 8, 9]]).c.Writer.body =
      (plainHandler.Handle storeCodec testChain getRoot emptyPool).1.c.Writer.body :=
  ⟨by decide,
   (wrapper_left_installed storeCodec plainHandler testChain getRoot emptyPool
     (by decide)).2.2 [Call.Write [7, 8, 9]]⟩

/-! ### Construction -/

theorem newLz4Handler_shares_default (mem : Memory) (options : List Setter) :
    (newLz4Handler mem options).1.Options = DefaultOptions ∧
    (newLz4Handler mem options).2 DefaultOptions =
      options.foldl (fun o setter => setter o) (mem DefaultOptions) := by
  refine ⟨rfl, ?_⟩
  simp only [newLz4Handler]
  induction options generalizing mem with
  | nil => rfl
  | cons setter rest ih =>
    simp only [List.foldl_cons]
    rw [ih]
    simp

/-- C7 fails on the code: with a default object that excludes `.png` (as `TestLz4PNG`
requires), a first handler is built with no option and a second with
`WithExcludedExtensions([".html"])` (as in `TestExcludedExtensions`). Both hold the pointer
`DefaultOptions`; building the second changes the default object, and the first handler, which
left `GET /image.png` uncompressed and compressed `GET /index.html`, now does the opposite. -/
theorem second_construction_changes_first :
    (newLz4Handler initialMemory []).1.Options =
      (newLz4Handler (newLz4Handler initialMemory []).2
        [WithExcludedExtensions [".html"]]).1.Options ∧
    ((newLz4Handler initialMemory []).1.view
      (newLz4Handler initialMemory []).2).shouldCompress pngRequest = false ∧
    ((newLz4Handler initialMemory []).1.view
      (newLz4Handler (newLz4Handler initialMemory []).2
        [WithExcludedExtensions [".html"]]).2).shouldCompress pngRequest = true ∧
    ((newLz4Handler initialMemory []).1.view
      (newLz4Handler initialMemory []).2).shouldCompress htmlRequest = true ∧
    ((newLz4Handler initialMemory []).1.view
      (newLz4Handler (newLz4Handler initialMemory []).2
        [WithExcludedExtensions [".html"]]).2).shouldCompress htmlRequest = false ∧
    ((newLz4Handler initialMemory []).2 DefaultOptions).ExcludedExtensions.Contains ".png"
      = true ∧
    ((newLz4Handler (newLz4Handler initialMemory []).2
        [WithExcludedExtensions [".html"]]).2 DefaultOptions).ExcludedExtensions.Contains ".png"
      = false := by
  decide

end GinLz4
